import Mathlib

/-!
# Verification of the CV application core (`src/App.tsx`)

Shallow embedding of the algorithmic core of the single-page CV application:

* the version-stamp generator `computeVersionHash` (App.tsx lines 67-76),
* the URL edition/version resolver (lines 37-41),
* the share-URL builder (lines 58-64),
* the data loader with edition fallback (lines 79-106),
* the version-status transition (lines 368-372),
* the PDF paginator arithmetic (lines 297-344) and export cleanup (lines 160-355).

Strings are modelled as `List Char`; the JSON-serialized document is modelled
as its list of UTF-16 code units (`List Nat`), since `JSON.stringify` and
`charCodeAt` are browser builtins.  JavaScript 32-bit integer semantics are
modelled in `Nat` with explicit `% 4294967296` (`2 ^ 32`) truncation at the
points where JavaScript coerces with `ToInt32`/`>>> 0`.  Fractional pixel
arithmetic in the paginator (JavaScript `number`s on exact integer/rational
values) is modelled in `ℚ` with `Int.floor`/`Int.ceil` for
`Math.floor`/`Math.ceil`.
-/

namespace CVApp

/-! ## Version stamp (`computeVersionHash`, App.tsx 67-76) -/

/-- The `2 ^ 32` modulus used by JavaScript 32-bit coercions (`ToInt32`, `>>> 0`). -/
def two32 : Nat := 4294967296

/-- One step of the hash loop (App.tsx line 71):
`hash = ((hash << 5) + hash) ^ json.charCodeAt(i)`.
JavaScript truncates the shift to 32 bits, adds as exact integers, and the
`^` operator coerces both operands with `ToInt32`; on the unsigned
(bit-pattern) view this is exactly the computation below. -/
def hashStep (h c : Nat) : Nat := (((h <<< 5) % two32 + h) % two32) ^^^ (c % two32)

/-- The fold of `hashStep` over the serialized document followed by the
`hash = hash >>> 0` unsigned coercion (App.tsx lines 69-73). -/
def djb2Unsigned (codes : List Nat) : Nat := (codes.foldl hashStep 5381) % two32

/-- Digit character used by JavaScript `Number.prototype.toString(36)`:
`0`-`9` then lowercase `a`-`z`. -/
def base36DigitChar (d : Nat) : Char :=
  if d < 10 then Char.ofNat (48 + d) else Char.ofNat (87 + d)

/-- Little-endian base-36 digits of `n`, with explicit fuel so that the
definition is structurally recursive (the fuel `n + 1` always suffices). -/
def digitsLEAux : Nat → Nat → List Char
  | 0, _ => []
  | fuel + 1, n =>
    if n < 36 then [base36DigitChar n]
    else base36DigitChar (n % 36) :: digitsLEAux fuel (n / 36)

/-- Little-endian base-36 digits of `n` (least significant first). -/
def digitsLE (n : Nat) : List Char := digitsLEAux (n + 1) n

/-- Model of `n.toString(36)`: most-significant-first base-36 digit string. -/
def toBase36 (n : Nat) : List Char := (digitsLE n).reverse

/-- The formatting tail of `computeVersionHash` (App.tsx lines 74-75):
`hash.toString(36).toUpperCase().padStart(6, '0').slice(-6)`. -/
def formatStamp (h : Nat) : List Char :=
  let base36 := (toBase36 h).map Char.toUpper
  let padded := List.replicate (6 - base36.length) '0' ++ base36
  padded.drop (padded.length - 6)

/-- `computeVersionHash` (App.tsx 67-76) on the already-serialized document
(the list of UTF-16 code units of `JSON.stringify(data)`). -/
def computeVersionHash (codes : List Nat) : List Char :=
  formatStamp (djb2Unsigned codes)

/-- One accumulator update exactly as the specification words it:
"set accumulator := ((accumulator << 5) + accumulator) XOR charCode with
fixed-width 32-bit wraparound at each step". -/
def specStep (acc c : Nat) : Nat := (((acc <<< 5) + acc) ^^^ c) % two32

/-- The Version Stamp algorithm as described by the specification (claim C1):
accumulator initialised to 5381, `specStep` per character, final coercion to
an unsigned 32-bit integer, then base-36 / uppercase / pad / last-6. -/
def versionStampSpec (codes : List Nat) : List Char :=
  formatStamp ((codes.foldl specStep 5381) % two32)

/-- The six stamp characters in little-endian digit order: digit `i` of the
hash in base 36, uppercased.  (Characterisation target for the proofs.) -/
def stampChars (h : Nat) : List Char :=
  (List.range 6).map fun i => Char.toUpper (base36DigitChar (h / 36 ^ i % 36))

/-- Uppercase base-36 alphabet membership: `0`-`9` or `A`-`Z`. -/
def isBase36Upper (c : Char) : Bool := c.isDigit || c.isUpper

/-! ## Edition / version resolver (App.tsx 37-41)

The source matches the page path against
`/(?:^|\/)e\/([^\/]+)(?:\/(?:v\/([A-Za-z0-9]{4,10}))?)?/` and, failing that,
against `/(?:^|\/)v\/([A-Za-z0-9]{4,10})/`.  Both regexes are embedded
directly: a leftmost-match scan over the character list; since every
optional group of the first regex can match the empty string, the greedy
interpretation below is exact (no backtracking is ever needed). -/

/-- `[A-Za-z0-9]` character class. -/
def isAlnumAscii (c : Char) : Bool := c.isAlpha || c.isDigit

/-- The `v\/([A-Za-z0-9]{4,10})` part: a literal `v/` followed by a greedy
run of 4 to 10 alphanumeric characters; returns the captured token. -/
def tryVersionBody : List Char → Option (List Char)
  | 'v' :: '/' :: rest =>
    let tok := (rest.takeWhile isAlnumAscii).take 10
    if 4 ≤ tok.length then some tok else none
  | _ => none

/-- The optional `(?:\/(?:v\/([A-Za-z0-9]{4,10}))?)?` tail after the edition
segment: capture group 2 is defined exactly when a `/v/` plus a valid token
follows. -/
def tryVersionTail : List Char → Option (List Char)
  | '/' :: rest => tryVersionBody rest
  | _ => none

/-- The body `e\/([^\/]+)(?:\/(?:v\/([A-Za-z0-9]{4,10}))?)?` of the edition
regex, applied at a fixed position: literal `e/`, a nonempty greedy run of
non-slash characters (group 1), then the optional version tail (group 2). -/
def tryEditionBody (l : List Char) : Option (List Char × Option (List Char)) :=
  match l with
  | 'e' :: '/' :: rest =>
    let ed := rest.takeWhile (· != '/')
    if ed.isEmpty then none
    else some (ed, tryVersionTail (rest.dropWhile (· != '/')))
  | _ => none

/-- Leftmost scan for the `(?:\/)e\/...` alternative: at each position whose
character is `/`, try the edition body on the remaining suffix. -/
def editionScanAux : List Char → Option (List Char × Option (List Char))
  | [] => none
  | '/' :: rest =>
    match tryEditionBody rest with
    | some r => some r
    | none => editionScanAux rest
  | _ :: rest => editionScanAux rest

/-- `path.match(/(?:^|\/)e\/([^\/]+)(?:\/(?:v\/([A-Za-z0-9]{4,10}))?)?/)`
(App.tsx line 38): the `^` alternative at position 0, then the leftmost
`\/`-anchored occurrence. -/
def editionMatch (path : List Char) : Option (List Char × Option (List Char)) :=
  match tryEditionBody path with
  | some r => some r
  | none => editionScanAux path

/-- Leftmost scan for the `\/v\/...` alternative of the root version regex. -/
def versionScanAux : List Char → Option (List Char)
  | [] => none
  | '/' :: rest =>
    match tryVersionBody rest with
    | some r => some r
    | none => versionScanAux rest
  | _ :: rest => versionScanAux rest

/-- `path.match(/(?:^|\/)v\/([A-Za-z0-9]{4,10})/)` (App.tsx line 39). -/
def rootVersionMatch (path : List Char) : Option (List Char) :=
  match tryVersionBody path with
  | some r => some r
  | none => versionScanAux path

/-- Value of a hexadecimal digit character, if any. -/
def hexVal (c : Char) : Option Nat :=
  if c.isDigit then some (c.toNat - 48)
  else if 'A' ≤ c ∧ c ≤ 'F' then some (c.toNat - 55)
  else if 'a' ≤ c ∧ c ≤ 'f' then some (c.toNat - 87)
  else none

/-- Model of the `decodeURIComponent` browser builtin, restricted to ASCII
percent-escapes (`%XX` becomes the character with code `XX`; other characters
pass through).  Multibyte UTF-8 escape sequences and the `URIError` cases of
the builtin are outside the scope of the claims, all of whose inputs are
percent-free. -/
def decodeURIComponent : List Char → List Char
  | [] => []
  | '%' :: h1 :: h2 :: rest =>
    match hexVal h1, hexVal h2 with
    | some a, some b => Char.ofNat (16 * a + b) :: decodeURIComponent rest
    | _, _ => '%' :: decodeURIComponent (h1 :: h2 :: rest)
  | c :: rest => c :: decodeURIComponent rest

/-- `initialEdition` (App.tsx line 40):
`editionMatch ? decodeURIComponent(editionMatch[1]) : null`. -/
def initialEdition (path : List Char) : Option (List Char) :=
  (editionMatch path).map fun m => decodeURIComponent m.1

/-- `providedVersionFromUrl` (App.tsx line 41):
`editionMatch ? editionMatch[2] || null : (rootVersionMatch ? rootVersionMatch[1] : null)`. -/
def providedVersionFromUrl (path : List Char) : Option (List Char) :=
  match editionMatch path with
  | some m => m.2
  | none => rootVersionMatch path

/-! ## Share URL (App.tsx 58-64) -/

/-- JavaScript truthiness of a nullable string: `null` and `""` are falsy. -/
def optTruthy : Option (List Char) → Bool
  | some l => !l.isEmpty
  | none => false

/-- `configuredBaseOrigin` (App.tsx line 58). -/
def configuredBaseOrigin : List Char := "https://cv.hapangama.com".toList

/-- `baseOrigin = configuredBaseOrigin || runtimeOrigin` (App.tsx line 61):
JavaScript `||` yields the right operand only when the left is falsy (here:
the empty string). -/
def baseOrigin (runtimeOrigin : List Char) : List Char :=
  if configuredBaseOrigin.isEmpty then runtimeOrigin else configuredBaseOrigin

/-- UTF-8 encoding of a single character (scalar value) as bytes. -/
def utf8Bytes (c : Char) : List Nat :=
  let n := c.toNat
  if n < 128 then [n]
  else if n < 2048 then [192 + n / 64, 128 + n % 64]
  else if n < 65536 then [224 + n / 4096, 128 + n / 64 % 64, 128 + n % 64]
  else [240 + n / 262144, 128 + n / 4096 % 64, 128 + n / 64 % 64, 128 + n % 64]

/-- Uppercase hexadecimal digit character. -/
def hexUpperChar (d : Nat) : Char :=
  if d < 10 then Char.ofNat (48 + d) else Char.ofNat (55 + d)

/-- `%XX` percent-escape of one byte. -/
def percentByte (b : Nat) : List Char := ['%', hexUpperChar (b / 16), hexUpperChar (b % 16)]

/-- Characters left unescaped by the `encodeURIComponent` builtin:
`A-Z a-z 0-9 - _ . ! ~ * ' ( )`. -/
def isUnreservedURI (c : Char) : Bool :=
  c.isAlpha || c.isDigit ||
    (c == '-' || c == '_' || c == '.' || c == '!' || c == '~' ||
     c == '*' || c == Char.ofNat 39 || c == '(' || c == ')')

/-- Model of the `encodeURIComponent` browser builtin: unreserved characters
pass through, every other character becomes the percent-escapes of its UTF-8
bytes. -/
def encodeURIComponent (l : List Char) : List Char :=
  (l.map fun c => if isUnreservedURI c then [c] else ((utf8Bytes c).map percentByte).flatten).flatten

/-- `shareUrl` (App.tsx 62-64): nested conditionals on the truthiness of
`versionHash` and `edition`. -/
def shareUrl (runtimeOrigin : List Char) (edition versionHash : Option (List Char)) :
    List Char :=
  let b := baseOrigin runtimeOrigin
  if optTruthy versionHash then
    if optTruthy edition then
      b ++ "/e/".toList ++ encodeURIComponent (edition.getD []) ++ "/v/".toList ++
        versionHash.getD []
    else b ++ "/v/".toList ++ versionHash.getD []
  else
    if optTruthy edition then b ++ "/e/".toList ++ encodeURIComponent (edition.getD [])
    else b

/-! ## Data loader with edition fallback (App.tsx 79-106)

A fetch of a resource can resolve with an `ok` response whose body parses to
the document, resolve with a non-success status, or reject (network error).
The document itself is opaque to the loader logic, so it is modelled as its
serialized code-unit list, which is what `computeVersionHash` consumes.  The
`load` function also returns the list of resources it fetched, in order, so
that "no retry" properties are expressible. -/

/-- Outcome of `await fetch(...)` (plus body parsing for the `ok` case). -/
inductive FetchOutcome where
  | ok (data : List Nat)
  | notOk
  | exn
deriving DecidableEq

/-- The page-level state touched by `load`. -/
structure LoadState where
  edition : Option (List Char)
  cvData : Option (List Nat)
  versionHash : Option (List Char)
  error : Option (List Char)
  visiblePath : List Char
deriving DecidableEq

/-- `/cv-data.json`, the default resource. -/
def defaultFile : List Char := "/cv-data.json".toList

/-- `fileForEdition` (App.tsx line 81). -/
def fileForEdition : Option (List Char) → List Char
  | some e => "/cv-data-".toList ++ e ++ ".json".toList
  | none => defaultFile

/-- The load-failure message set by the catch handler (App.tsx line 101). -/
def loadErrorMsg : List Char := "Failed to load CV data.".toList

/-- The path written by `window.history.replaceState` on fallback success
(App.tsx line 90): `/` plus `v/{providedVersionFromUrl}` when the provided
version is truthy. -/
def rewrittenPath (pv : Option (List Char)) : List Char :=
  "/".toList ++ (if optTruthy pv then "v/".toList ++ pv.getD [] else [])

/-- `setCvData(data)` followed by `setVersionHash(computeVersionHash(data))`
(App.tsx lines 95-98). -/
def applyData (s : LoadState) (data : List Nat) : LoadState :=
  { s with cvData := some data, versionHash := some (computeVersionHash data) }

/-- The `load` closure (App.tsx 80-103): fetch the edition candidate; on a
non-success status with an edition requested, fetch the default resource,
clearing the edition and rewriting the visible path on fallback success;
every other failure (including a rejected fetch) reaches the catch handler,
which records the load error.  Returns the new state and the list of
resources fetched. -/
def load (fetch : List Char → FetchOutcome) (pv : Option (List Char)) (s : LoadState) :
    LoadState × List (List Char) :=
  let f1 := fileForEdition s.edition
  match fetch f1 with
  | .ok data => (applyData s data, [f1])
  | .notOk =>
    match s.edition with
    | some _ =>
      match fetch defaultFile with
      | .ok data =>
        (applyData { s with edition := none, visiblePath := rewrittenPath pv } data,
          [f1, defaultFile])
      | .notOk => ({ s with error := some loadErrorMsg }, [f1, defaultFile])
      | .exn => ({ s with error := some loadErrorMsg }, [f1, defaultFile])
    | none => ({ s with error := some loadErrorMsg }, [f1])
  | .exn => ({ s with error := some loadErrorMsg }, [f1])

/-! ## Version status transition (App.tsx 368-372) -/

/-- The tri-state `versionStatus`. -/
inductive VersionStatus where
  | unknown
  | match'
  | mismatch
deriving DecidableEq

/-- One run of the version-status effect (App.tsx 368-372): only in the
`unknown` state, and only when both the provided version and the computed
hash are truthy, compare them for exact equality. -/
def versionStatusStep (s : VersionStatus) (pv vh : Option (List Char)) : VersionStatus :=
  if s = VersionStatus.unknown ∧ optTruthy pv ∧ optTruthy vh then
    if pv = vh then VersionStatus.match' else VersionStatus.mismatch
  else s

/-! ## PDF paginator arithmetic (App.tsx 297-344) -/

/-- `PDF_CONFIG.PAGE_HEIGHT_MM` (App.tsx line 16). -/
def PAGE_HEIGHT_MM : ℚ := 297

/-- `PDF_CONFIG.PAGE_MARGIN_MM` (App.tsx line 17). -/
def PAGE_MARGIN_MM : ℚ := 15

/-- `PDF_CONFIG.PRINTABLE_WIDTH_MM` (App.tsx line 18). -/
def PRINTABLE_WIDTH_MM : ℚ := 180

/-- `printableHeightMm = pageHeightMm - marginMm * 2` (App.tsx line 303). -/
def printableHeightMm : ℚ := PAGE_HEIGHT_MM - PAGE_MARGIN_MM * 2

/-- `pxPerMm = imgWidthPx / printableWidthMm` (App.tsx line 318). -/
def pxPerMm (imgWidthPx : ℚ) : ℚ := imgWidthPx / PRINTABLE_WIDTH_MM

/-- `pageHeightPx = printableHeightMm * pxPerMm` (App.tsx line 319). -/
def pageHeightPx (imgWidthPx : ℚ) : ℚ := printableHeightMm * pxPerMm imgWidthPx

/-- `totalPages = Math.ceil(imgHeightPx / pageHeightPx)` (App.tsx line 321). -/
def totalPages (imgWidthPx imgHeightPx : ℚ) : ℤ :=
  Int.ceil (imgHeightPx / pageHeightPx imgWidthPx)

/-- The vertical band of the bitmap drawn on one page: its top (`sy`) and
its height (`sHeight`). -/
structure PageSlice where
  sy : ℚ
  sHeight : ℚ
deriving DecidableEq

/-- The slice of page `page` (App.tsx lines 329-330):
`sy = Math.floor(page * pageHeightPx)`,
`sHeight = Math.min(pageHeightPx, imgHeightPx - sy)`. -/
def sliceAt (imgWidthPx imgHeightPx : ℚ) (page : ℕ) : PageSlice :=
  let sy : ℚ := Int.floor ((page : ℚ) * pageHeightPx imgWidthPx)
  { sy := sy, sHeight := min (pageHeightPx imgWidthPx) (imgHeightPx - sy) }

/-- The pages emitted by the loop `for (let page = 0; page < totalPages; page++)`
(App.tsx line 326). -/
def pages (imgWidthPx imgHeightPx : ℚ) : List PageSlice :=
  (List.range (totalPages imgWidthPx imgHeightPx).toNat).map (sliceAt imgWidthPx imgHeightPx)

/-! ## Export cleanup (App.tsx 160-355)

`handleDownloadPdf` is modelled at the granularity the cleanup claim needs:
whether the temporary clone and style nodes are attached, whether the
in-progress flag is set, and whether the file was saved or the failure alert
was shown.  The rasterize-and-assemble `try` body either succeeds or throws,
and the `finally` block always detaches both nodes and clears the flag. -/

/-- DOM/UI state relevant to `handleDownloadPdf`. -/
structure ExportState where
  isDownloading : Bool
  cloneAttached : Bool
  styleAttached : Bool
  saved : Bool
  alerted : Bool
deriving DecidableEq

/-- The `try` body (App.tsx 297-344): rasterization plus PDF assembly.  When
the parameter says it throws, the state at the throw point is returned as the
error payload; otherwise the document is saved. -/
def pdfTryBody (bodyThrows : Bool) (s : ExportState) : Except ExportState ExportState :=
  if bodyThrows then Except.error s else Except.ok { s with saved := true }

/-- `handleDownloadPdf` (App.tsx 160-355): early return when the `cv-content`
element is missing; otherwise set the in-progress flag, attach the clone and
the temporary style element, run the `try` body, show the alert in `catch`,
and in `finally` remove the style element, remove the clone and clear the
flag. -/
def handleDownloadPdf (cvElementExists bodyThrows : Bool) (s : ExportState) : ExportState :=
  if !cvElementExists then s
  else
    let s1 := { s with isDownloading := true }
    let s2 := { s1 with cloneAttached := true }
    let s3 := { s2 with styleAttached := true }
    let s4 :=
      match pdfTryBody bodyThrows s3 with
      | .ok s' => s'
      | .error s' => { s' with alerted := true }
    { s4 with styleAttached := false, cloneAttached := false, isDownloading := false }

/-! ## Concrete fixtures used by the witnesses -/

/-- The edition resource for edition `acme`. -/
def exampleEditionFile : List Char := fileForEdition (some "acme".toList)

/-- A fetch environment where the `acme` edition resource 404s and everything
else succeeds with an empty body. -/
def fallbackFetch (p : List Char) : FetchOutcome :=
  if p = exampleEditionFile then FetchOutcome.notOk else FetchOutcome.ok []

/-- A fetch environment where the `acme` edition fetch rejects (network
error) and everything else succeeds. -/
def exnFetch (p : List Char) : FetchOutcome :=
  if p = exampleEditionFile then FetchOutcome.exn else FetchOutcome.ok []

/-- A fetch environment where every fetch returns a non-success status. -/
def failFetch (_ : List Char) : FetchOutcome := FetchOutcome.notOk

/-- Initial page state after parsing `/e/acme/v/AB12CD`. -/
def startState : LoadState :=
  { edition := some "acme".toList, cvData := none, versionHash := none, error := none,
    visiblePath := "/e/acme/v/AB12CD".toList }

/-- Initial page state with no edition requested. -/
def startStateNoEdition : LoadState := { startState with edition := none }

/-- A fully clean export state (nothing attached, nothing in progress). -/
def cleanExportState : ExportState :=
  { isDownloading := false, cloneAttached := false, styleAttached := false,
    saved := false, alerted := false }

/-! ## Helper lemmas for the version stamp -/

lemma take_append_replicate_of_le {l : List Char} {k m : ℕ} {c : Char} (h : k ≤ m) :
    (l ++ List.replicate m c).take k = (l ++ List.replicate k c).take k := by
  induction l generalizing k m with
  | nil =>
    simp only [List.nil_append, List.take_replicate]
    congr 1
    omega
  | cons a l ih =>
    cases k with
    | zero => simp
    | succ k =>
      simp only [List.cons_append, List.take_succ_cons, List.cons.injEq, true_and]
      rw [ih (Nat.le_of_succ_le h), ih (Nat.le_succ k)]

lemma digitsLEAux_take_padded :
    ∀ (k fuel n : ℕ), n < fuel →
      (digitsLEAux fuel n ++ List.replicate k '0').take k =
        (List.range k).map fun i => base36DigitChar (n / 36 ^ i % 36) := by
  intro k
  induction k with
  | zero => simp
  | succ k ih =>
    intro fuel n hfuel
    cases fuel with
    | zero => omega
    | succ f =>
      rw [List.range_succ_eq_map, List.map_cons, List.map_map, digitsLEAux]
      by_cases h36 : n < 36
      · have hdiv : ∀ i : ℕ, n / 36 ^ (i + 1) = 0 := fun i =>
          Nat.div_eq_of_lt (lt_of_lt_of_le h36 (Nat.le_self_pow (Nat.succ_ne_zero i) 36))
        rw [if_pos h36]
        simp only [List.cons_append, List.take_succ_cons, List.nil_append,
          List.take_replicate, List.cons.injEq]
        refine ⟨by rw [pow_zero, Nat.div_one, Nat.mod_eq_of_lt h36], ?_⟩
        have htail : (List.range k).map ((fun i => base36DigitChar (n / 36 ^ i % 36)) ∘
            Nat.succ) = (List.range k).map fun _ => '0' := by
          apply List.map_congr_left
          intro i _
          simp only [Function.comp_apply, hdiv i, Nat.zero_mod]
          rfl
        rw [htail, List.map_const', List.length_range]
        congr 1
        omega
      · have hn : 0 < n := by omega
        have hlt : n / 36 < f := lt_of_lt_of_le (Nat.div_lt_self hn (by norm_num))
          (Nat.lt_succ_iff.mp hfuel)
        rw [if_neg h36]
        simp only [List.cons_append, List.take_succ_cons, List.cons.injEq]
        refine ⟨by rw [pow_zero, Nat.div_one], ?_⟩
        rw [take_append_replicate_of_le (Nat.le_succ k), ih f (n / 36) hlt]
        apply List.map_congr_left
        intro i _
        simp only [Function.comp_apply]
        rw [Nat.div_div_eq_div_mul, ← pow_succ']

lemma pad_slice_reverse (u : List Char) :
    (List.replicate (6 - u.reverse.length) '0' ++ u.reverse).drop
      ((List.replicate (6 - u.reverse.length) '0' ++ u.reverse).length - 6) =
    ((u ++ List.replicate 6 '0').take 6).reverse := by
  by_cases hL : 6 ≤ u.length
  · have h0 : 6 - u.reverse.length = 0 := by
      rw [List.length_reverse]; omega
    rw [h0, List.replicate_zero, List.nil_append, List.drop_reverse,
      List.take_append_of_le_length hL, List.length_reverse]
    congr 2
    omega
  · push_neg at hL
    have hlen : (List.replicate (6 - u.reverse.length) '0' ++ u.reverse).length = 6 := by
      simp only [List.length_append, List.length_replicate, List.length_reverse]
      omega
    rw [hlen, Nat.sub_self, List.drop_zero]
    have h6 : 6 = u.length + (6 - u.length) := by omega
    rw [h6, List.take_append, List.take_replicate, List.reverse_append,
      List.reverse_replicate, List.length_reverse]
    congr 3
    omega

lemma formatStamp_eq_take (h : ℕ) :
    formatStamp h =
      (((digitsLE h).map Char.toUpper ++ List.replicate 6 '0').take 6).reverse := by
  have := pad_slice_reverse ((digitsLE h).map Char.toUpper)
  rw [← List.map_reverse] at this
  exact this

lemma formatStamp_eq_stampChars (h : ℕ) : formatStamp h = (stampChars h).reverse := by
  rw [formatStamp_eq_take]
  congr 1
  have hzero : List.replicate 6 '0' = (List.replicate 6 '0').map Char.toUpper := by
    rw [List.map_replicate]
    decide
  rw [hzero, ← List.map_append, ← List.map_take, digitsLE,
    digitsLEAux_take_padded 6 (h + 1) h (Nat.lt_succ_self h), List.map_map]
  rfl

lemma base36DigitChar_upper_mem : ∀ d, d < 36 →
    isBase36Upper (Char.toUpper (base36DigitChar d)) = true := by decide

lemma xor_mod_two_pow (x y n : ℕ) : (x ^^^ y) % 2 ^ n = x % 2 ^ n ^^^ y % 2 ^ n := by
  apply Nat.eq_of_testBit_eq
  intro i
  simp only [Nat.testBit_mod_two_pow, Nat.testBit_xor]
  by_cases hi : i < n <;> simp [hi]

lemma hashStep_eq_specStep (a c : ℕ) : hashStep a c = specStep a c := by
  unfold hashStep specStep two32
  have h32 : (4294967296 : ℕ) = 2 ^ 32 := by norm_num
  rw [h32, Nat.mod_add_mod, xor_mod_two_pow]

lemma stampChars_mod (h : ℕ) : stampChars h = stampChars (h % 36 ^ 6) := by
  unfold stampChars
  apply List.map_congr_left
  intro i hi
  rw [List.mem_range] at hi
  rw [← Nat.mod_mul_right_div_self h (36 ^ i) 36,
    ← Nat.mod_mul_right_div_self (h % 36 ^ 6) (36 ^ i) 36, ← pow_succ,
    Nat.mod_mod_of_dvd h (pow_dvd_pow 36 (by omega))]

/-! ## Claim theorems: version stamp -/

/-- **C1.** For every CV Document (given by its serialized JSON string, here
its list of UTF-16 code units), the Version Stamp computed by the code equals
the stamp described by the specification: accumulator 5381, per-character
update `acc := ((acc << 5) + acc) XOR charCode` with 32-bit wraparound at
each step, final unsigned 32-bit coercion, base-36 conversion, uppercasing,
left-padding with `0` to at least 6 characters, and taking the last 6. -/
theorem computeVersionHash_refines_spec (codes : List ℕ) :
    computeVersionHash codes = versionStampSpec codes := by
  unfold computeVersionHash versionStampSpec djb2Unsigned
  have hstep : hashStep = specStep := funext fun a => funext fun c => hashStep_eq_specStep a c
  rw [hstep]

/-- **C8.** For every input document, the computed Version Stamp is exactly 6
characters long and every character is an uppercase base-36 digit
(`0`-`9` or `A`-`Z`). -/
theorem computeVersionHash_length_alphabet (codes : List ℕ) :
    (computeVersionHash codes).length = 6 ∧
      ∀ c, c ∈ computeVersionHash codes → isBase36Upper c = true := by
  rw [computeVersionHash, formatStamp_eq_stampChars]
  constructor
  · simp [stampChars]
  · intro c hc
    rw [List.mem_reverse] at hc
    unfold stampChars at hc
    rw [List.mem_map] at hc
    obtain ⟨i, _, rfl⟩ := hc
    exact base36DigitChar_upper_mem _ (Nat.mod_lt _ (by norm_num))

/-- Witness for C8 at the empty document: length 6 and the first character
`'0'` of the stamp `"00045H"` is in the alphabet. -/
theorem computeVersionHash_length_alphabet_witness :
    (computeVersionHash []).length = 6 ∧ isBase36Upper '0' = true :=
  ⟨(computeVersionHash_length_alphabet []).1,
    (computeVersionHash_length_alphabet []).2 '0' (by decide)⟩

/-- **C9.** The Version Stamp depends only on the unsigned 32-bit hash value
modulo `36 ^ 6 = 2176782336`: any two documents whose hashes are congruent
modulo `36 ^ 6` receive identical stamps. -/
theorem stamp_depends_only_on_hash_mod_base36 (c1 c2 : List ℕ)
    (h : djb2Unsigned c1 % 2176782336 = djb2Unsigned c2 % 2176782336) :
    computeVersionHash c1 = computeVersionHash c2 := by
  have h36 : (2176782336 : ℕ) = 36 ^ 6 := by norm_num
  rw [h36] at h
  rw [computeVersionHash, computeVersionHash, formatStamp_eq_stampChars,
    formatStamp_eq_stampChars, stampChars_mod, stampChars_mod (djb2Unsigned c2), h]

/-- Witness for C9: the one-character documents `[0]` and `[2177069056]` hash
to `177573` and `177573 + 36 ^ 6` respectively — congruent modulo `36 ^ 6` —
and indeed receive the same stamp. -/
theorem stamp_depends_only_on_hash_mod_base36_witness :
    djb2Unsigned [0] % 2176782336 = djb2Unsigned [2177069056] % 2176782336 ∧
      computeVersionHash [0] = computeVersionHash [2177069056] :=
  ⟨by decide, stamp_depends_only_on_hash_mod_base36 [0] [2177069056] (by decide)⟩

/-! ## Claim theorems: resolver, share URL, status, loader, export -/

/-- **C3.** Parsing `/e/acme/v/AB12CD` yields edition `"acme"` (URL-decoded)
and provided-version `"AB12CD"`; parsing `/v/XY9Z01` yields edition `null`
and provided-version `"XY9Z01"`; and for every path matching neither the
edition regex nor the root-level version regex, both are `null`. -/
theorem resolver_parsePath_cases :
    (initialEdition "/e/acme/v/AB12CD".toList = some "acme".toList ∧
      providedVersionFromUrl "/e/acme/v/AB12CD".toList = some "AB12CD".toList) ∧
    (initialEdition "/v/XY9Z01".toList = none ∧
      providedVersionFromUrl "/v/XY9Z01".toList = some "XY9Z01".toList) ∧
    ∀ path : List Char, editionMatch path = none → rootVersionMatch path = none →
      initialEdition path = none ∧ providedVersionFromUrl path = none := by
  refine ⟨⟨by decide, by decide⟩, ⟨by decide, by decide⟩, ?_⟩
  intro path h1 h2
  constructor
  · rw [initialEdition, h1]
    rfl
  · rw [providedVersionFromUrl, h1, h2]

/-- Witness for the universally quantified part of C3: the path `hello`
matches neither regex and resolves to `(null, null)`. -/
theorem resolver_parsePath_cases_witness :
    initialEdition "hello".toList = none ∧ providedVersionFromUrl "hello".toList = none :=
  resolver_parsePath_cases.2.2 "hello".toList (by decide) (by decide)

/-- **C5.** From the `unknown` state, once both a (truthy) provided version
and a computed stamp exist, the status becomes `match` exactly when the two
strings are equal and `mismatch` otherwise; any non-`unknown` status is never
changed by later effect runs; and with no provided version the status stays
`unknown` after any number of effect runs. -/
theorem versionStatus_transitions (pv vh : List Char) (hpv : pv ≠ []) (hvh : vh ≠ []) :
    (pv = vh →
      versionStatusStep VersionStatus.unknown (some pv) (some vh) = VersionStatus.match') ∧
    (pv ≠ vh →
      versionStatusStep VersionStatus.unknown (some pv) (some vh) = VersionStatus.mismatch) ∧
    (∀ (s : VersionStatus) (pv' vh' : Option (List Char)),
      s ≠ VersionStatus.unknown → versionStatusStep s pv' vh' = s) ∧
    (∀ vhs : List (Option (List Char)),
      vhs.foldl (fun s vh' => versionStatusStep s none vh') VersionStatus.unknown =
        VersionStatus.unknown) := by
  refine ⟨?_, ?_, ?_, ?_⟩
  · intro h
    simp [versionStatusStep, optTruthy, hpv, hvh, h]
  · intro h
    simp [versionStatusStep, optTruthy, hpv, hvh, h]
  · intro s pv' vh' hs
    simp [versionStatusStep, hs]
  · intro vhs
    induction vhs with
    | nil => rfl
    | cons a l ih =>
      rw [List.foldl_cons]
      have hstep : versionStatusStep VersionStatus.unknown none a = VersionStatus.unknown := by
        simp [versionStatusStep, optTruthy]
      rw [hstep, ih]

/-- Witness for C5: with provided version and stamp both `AB12CD`, the status
resolves to `match`. -/
theorem versionStatus_transitions_witness :
    versionStatusStep VersionStatus.unknown (some "AB12CD".toList) (some "AB12CD".toList) =
      VersionStatus.match' :=
  (versionStatus_transitions "AB12CD".toList "AB12CD".toList (by decide) (by decide)).1 rfl

/-- **C6.** For every runtime origin and every (truthy-or-absent) edition and
stamp state, the share URL equals the fixed canonical base origin
`https://cv.hapangama.com` — never the runtime origin — followed by
`/e/{urlEncode(edition)}` exactly when an edition is present, followed by
`/v/{stamp}` exactly when the stamp is known. -/
theorem shareUrl_canonical (runtimeOrigin : List Char) (edition vh : Option (List Char))
    (hed : ∀ e, edition = some e → e ≠ []) (hvh : ∀ h, vh = some h → h ≠ []) :
    shareUrl runtimeOrigin edition vh =
      configuredBaseOrigin ++
        (match edition with
          | some e => "/e/".toList ++ encodeURIComponent e
          | none => []) ++
        (match vh with
          | some h => "/v/".toList ++ h
          | none => []) := by
  have hb : baseOrigin runtimeOrigin = configuredBaseOrigin := rfl
  cases edition with
  | none =>
    cases vh with
    | none => simp [shareUrl, optTruthy, hb]
    | some h =>
      have hh := hvh h rfl
      simp [shareUrl, optTruthy, hb, hh]
  | some e =>
    have he := hed e rfl
    cases vh with
    | none => simp [shareUrl, optTruthy, hb, he]
    | some h =>
      have hh := hvh h rfl
      simp [shareUrl, optTruthy, hb, he, hh, List.append_assoc]

/-- Witness for C6: viewed from a staging origin with edition `acme` and
stamp `AB12CD`, the share URL is built on the canonical base. -/
theorem shareUrl_canonical_witness :
    shareUrl "http://localhost:3000".toList (some "acme".toList) (some "AB12CD".toList) =
      configuredBaseOrigin ++ ("/e/".toList ++ encodeURIComponent "acme".toList) ++
        ("/v/".toList ++ "AB12CD".toList) :=
  shareUrl_canonical "http://localhost:3000".toList (some "acme".toList)
    (some "AB12CD".toList) (fun e he => by injection he with h; subst h; decide)
    (fun h hh => by injection hh with h2; subst h2; decide)

/-- **C4.** With an edition requested: if the edition fetch returns a
non-success status and the default fetch succeeds, the final edition is
`null`, no load error is shown, and the visible path is rewritten to drop the
edition segment while preserving a root-level version segment; if the
default fetch also fails (non-success or rejection), a load error is
surfaced.  With no edition requested, a failing fetch surfaces a load error.
In every case exactly the listed resources are fetched — no retry. -/
theorem load_edition_fallback :
    (∀ (fetch : List Char → FetchOutcome) (pv : Option (List Char)) (e : List Char)
        (s : LoadState), s.edition = some e → s.error = none →
      fetch (fileForEdition (some e)) = FetchOutcome.notOk →
      (∀ d, fetch defaultFile = FetchOutcome.ok d →
        (load fetch pv s).1.edition = none ∧ (load fetch pv s).1.error = none ∧
          (load fetch pv s).1.visiblePath = rewrittenPath pv ∧
          (load fetch pv s).2 = [fileForEdition (some e), defaultFile]) ∧
      (fetch defaultFile = FetchOutcome.notOk ∨ fetch defaultFile = FetchOutcome.exn →
        (load fetch pv s).1.error = some loadErrorMsg ∧
          (load fetch pv s).2 = [fileForEdition (some e), defaultFile])) ∧
    (∀ (fetch : List Char → FetchOutcome) (pv : Option (List Char)) (s : LoadState),
      s.edition = none →
      (fetch defaultFile = FetchOutcome.notOk ∨ fetch defaultFile = FetchOutcome.exn) →
      (load fetch pv s).1.error = some loadErrorMsg ∧ (load fetch pv s).2 = [defaultFile]) := by
  constructor
  · intro fetch pv e s hse hserr hfe
    constructor
    · intro d hd
      simp [load, hse, hfe, hd, applyData, hserr]
    · intro hdef
      rcases hdef with hdef | hdef <;> simp [load, hse, hfe, hdef]
  · intro fetch pv s hs hdef
    rcases hdef with hdef | hdef <;> simp [load, hs, fileForEdition, hdef]

/-- Witness for C4 (fallback-success branch): edition `acme` 404s, the
default resource succeeds, and the resulting edition state is `null`. -/
theorem load_edition_fallback_witness :
    (load fallbackFetch (some "AB12CD".toList) startState).1.edition = none :=
  ((load_edition_fallback.1 fallbackFetch (some "AB12CD".toList) "acme".toList startState
    rfl rfl (by decide)).1 [] (by decide)).1

/-- **C10.** If the fetch of an edition-specific resource rejects (throws)
rather than returning a non-success response, the loader does not attempt the
default-resource fallback: the load error is surfaced directly, the edition
state is left unchanged, and only the edition resource was fetched. -/
theorem load_exception_no_fallback (fetch : List Char → FetchOutcome)
    (pv : Option (List Char)) (e : List Char) (s : LoadState)
    (hse : s.edition = some e)
    (hx : fetch (fileForEdition (some e)) = FetchOutcome.exn) :
    (load fetch pv s).1.error = some loadErrorMsg ∧
      (load fetch pv s).1.edition = some e ∧
      (load fetch pv s).2 = [fileForEdition (some e)] := by
  simp [load, hse, hx]

/-- Witness for C10: a rejecting `acme` edition fetch leaves the edition
state at `acme` and fetches only the edition resource. -/
theorem load_exception_no_fallback_witness :
    (load exnFetch none startState).1.edition = some "acme".toList ∧
      (load exnFetch none startState).2 = [fileForEdition (some "acme".toList)] :=
  ⟨(load_exception_no_fallback exnFetch none "acme".toList startState rfl (by decide)).2.1,
    (load_exception_no_fallback exnFetch none "acme".toList startState rfl (by decide)).2.2⟩

/-- **C7.** After every PDF export invocation — whether the rasterize/assembly
body succeeds or throws — no clone node and no temporary style element remain
attached and the in-progress flag is back to `false` (starting from a clean
pre-invocation state, as guaranteed by the disabled trigger). -/
theorem export_cleanup (cvElementExists bodyThrows : Bool) (s : ExportState)
    (h1 : s.cloneAttached = false) (h2 : s.styleAttached = false)
    (h3 : s.isDownloading = false) :
    (handleDownloadPdf cvElementExists bodyThrows s).cloneAttached = false ∧
      (handleDownloadPdf cvElementExists bodyThrows s).styleAttached = false ∧
      (handleDownloadPdf cvElementExists bodyThrows s).isDownloading = false := by
  cases cvElementExists <;> cases bodyThrows <;>
    simp [handleDownloadPdf, pdfTryBody, h1, h2, h3]

/-- Witness for C7 on the forced-failure path from the clean state. -/
theorem export_cleanup_witness :
    (handleDownloadPdf true true cleanExportState).cloneAttached = false ∧
      (handleDownloadPdf true true cleanExportState).styleAttached = false ∧
      (handleDownloadPdf true true cleanExportState).isDownloading = false :=
  export_cleanup true true cleanExportState rfl rfl rfl

/-! ## Paginator lemmas -/

lemma pageHeightPx_hundred : pageHeightPx 100 = 445 / 3 := by
  norm_num [pageHeightPx, pxPerMm, printableHeightMm, PAGE_HEIGHT_MM, PAGE_MARGIN_MM,
    PRINTABLE_WIDTH_MM]

lemma totalPages_three_mul (w : ℚ) (ph : ℕ) (hph : 0 < ph)
    (hw : pageHeightPx w = (ph : ℚ)) : totalPages w (3 * ph) = 3 := by
  have hph0 : (0:ℚ) < ph := by exact_mod_cast hph
  rw [totalPages, hw, mul_div_assoc, div_self (ne_of_gt hph0), mul_one,
    show ((3:ℚ)) = ((3:ℤ):ℚ) by norm_num, Int.ceil_intCast]

lemma sliceAt_intHeight (w : ℚ) (ph : ℕ) (hph : 0 < ph) (hw : pageHeightPx w = (ph : ℚ))
    (p : ℕ) (hp : p < 3) :
    sliceAt w (3 * ph) p = { sy := ((p * ph : ℕ) : ℚ), sHeight := (ph : ℚ) } := by
  have hph0 : (0:ℚ) < ph := by exact_mod_cast hph
  have hp2 : (p:ℚ) ≤ 2 := by exact_mod_cast Nat.lt_succ_iff.mp hp
  have hsy : ⌊(p : ℚ) * pageHeightPx w⌋ = ((p * ph : ℕ) : ℤ) := by
    rw [hw, show ((p:ℚ) * (ph:ℚ)) = ((p * ph : ℕ) : ℚ) by push_cast; ring, Int.floor_natCast]
  simp only [sliceAt, hsy, PageSlice.mk.injEq]
  constructor
  · push_cast
    ring
  · rw [hw]
    rw [min_eq_left (by push_cast; nlinarith)]

lemma sliceAt_nonoverlap_intHeight (w : ℚ) (ph : ℕ) (hph : 0 < ph)
    (hw : pageHeightPx w = (ph : ℚ)) (p q : ℕ) (hpq : p < q) (hq : q < 3) :
    (sliceAt w (3 * ph) p).sy + (sliceAt w (3 * ph) p).sHeight ≤
      (sliceAt w (3 * ph) q).sy := by
  have hph0 : (0:ℚ) < ph := by exact_mod_cast hph
  rw [sliceAt_intHeight w ph hph hw p (lt_trans hpq hq), sliceAt_intHeight w ph hph hw q hq]
  show ((p * ph : ℕ) : ℚ) + (ph : ℚ) ≤ ((q * ph : ℕ) : ℚ)
  have hq' : (p:ℚ) + 1 ≤ (q:ℚ) := by exact_mod_cast hpq
  push_cast
  nlinarith

lemma lastSlice_intHeight (w : ℚ) (ph h : ℕ) (hph : 0 < ph)
    (hw : pageHeightPx w = (ph : ℚ)) (hnd : ¬ ph ∣ h) :
    (sliceAt w h ((totalPages w h).toNat - 1)).sHeight = ((h % ph : ℕ) : ℚ) := by
  have hph0 : (0:ℚ) < ph := by exact_mod_cast hph
  have hr0 : h % ph ≠ 0 := fun hc => hnd (Nat.dvd_iff_mod_eq_zero.mpr hc)
  obtain ⟨q, r, hqr, hrlt, hr1⟩ : ∃ q r : ℕ, h = ph * q + r ∧ r < ph ∧ 1 ≤ r :=
    ⟨h / ph, h % ph, by rw [Nat.div_add_mod], Nat.mod_lt _ hph,
      Nat.one_le_iff_ne_zero.mpr hr0⟩
  subst hqr
  have hmod : (ph * q + r) % ph = r := by
    rw [Nat.mul_add_mod, Nat.mod_eq_of_lt hrlt]
  have hr1Q : (1:ℚ) ≤ (r:ℚ) := by exact_mod_cast hr1
  have hrltQ : (r:ℚ) < (ph:ℚ) := by exact_mod_cast hrlt
  have hceil : totalPages w (ph * q + r : ℕ) = (q:ℤ) + 1 := by
    rw [totalPages, hw, Int.ceil_eq_iff]
    constructor
    · push_cast
      rw [show ((q:ℚ) + 1 - 1) = (q:ℚ) by ring, lt_div_iff₀ hph0]
      nlinarith
    · rw [div_le_iff₀ hph0]
      push_cast
      nlinarith
  have htn : ((totalPages w (ph * q + r : ℕ)).toNat - 1) = q := by
    rw [hceil]
    omega
  have hsy : ⌊(q : ℚ) * pageHeightPx w⌋ = ((q * ph : ℕ) : ℤ) := by
    rw [hw, show ((q:ℚ) * (ph:ℚ)) = ((q * ph : ℕ) : ℚ) by push_cast; ring, Int.floor_natCast]
  rw [htn]
  simp only [sliceAt, hsy]
  rw [hw, show ((ph * q + r : ℕ) : ℚ) - (((q * ph : ℕ) : ℤ) : ℚ) = (r:ℚ) by push_cast; ring,
    min_eq_right (le_of_lt hrltQ), hmod]

/-! ## Claim theorems: paginator -/

/-- **C2 counterexample.** With bitmap width 100 the per-page pixel height is
`445/3`, which is not an integer.  For bitmap height `445 = 3 × (445/3)` the
paginator emits exactly 3 pages, but the slice of page 1 starts at row
`⌊445/3⌋ = 148`, strictly above the end `445/3 ≈ 148.33` of page 0's slice,
so the bands overlap.  And for height `440` — not an exact multiple of the
per-page height — the last slice height is `144`, not the division remainder
`440 - 2 × 445/3 = 430/3`.  This refutes the non-overlap and
last-slice-equals-remainder parts of the claim as stated. -/
theorem paginator_counterexample :
    ((445 : ℚ) = 3 * pageHeightPx 100 ∧
      (pages 100 445).length = 3 ∧
      (sliceAt 100 445 1).sy < (sliceAt 100 445 0).sy + (sliceAt 100 445 0).sHeight) ∧
    ((¬ ∃ k : ℤ, (440 : ℚ) = (k : ℚ) * pageHeightPx 100) ∧
      totalPages 100 440 = 3 ∧
      (sliceAt 100 440 2).sHeight ≠ 440 - 2 * pageHeightPx 100) := by
  have htp : totalPages 100 445 = 3 := by
    rw [totalPages, pageHeightPx_hundred, Int.ceil_eq_iff]
    norm_num
  refine ⟨⟨?_, ?_, ?_⟩, ⟨?_, ?_, ?_⟩⟩
  · rw [pageHeightPx_hundred]
    norm_num
  · simp [pages, htp]
  · have hf1 : ⌊((1:ℕ):ℚ) * pageHeightPx 100⌋ = 148 := by
      rw [pageHeightPx_hundred, Int.floor_eq_iff]
      norm_num
    have hf0 : ⌊((0:ℕ):ℚ) * pageHeightPx 100⌋ = 0 := by
      simp
    simp only [sliceAt, hf1, hf0]
    rw [pageHeightPx_hundred]
    rw [min_eq_left (by norm_num : (445:ℚ)/3 ≤ 445 - ((0:ℤ):ℚ))]
    norm_num
  · rintro ⟨k, hk⟩
    rw [pageHeightPx_hundred] at hk
    have h2 : (445 : ℚ) * k = 1320 := by
      field_simp at hk
      linarith
    have h3 : (445 * k : ℤ) = 1320 := by exact_mod_cast h2
    omega
  · rw [totalPages, pageHeightPx_hundred, Int.ceil_eq_iff]
    norm_num
  · have hf2 : ⌊((2:ℕ):ℚ) * pageHeightPx 100⌋ = 296 := by
      rw [pageHeightPx_hundred, Int.floor_eq_iff]
      norm_num
    simp only [sliceAt, hf2]
    rw [pageHeightPx_hundred]
    rw [min_eq_right (by norm_num : (440:ℚ) - ((296:ℤ):ℚ) ≤ 445/3)]
    norm_num

/-- **C2 amended.** The paginator always emits exactly
`ceiling(bitmap height / per-page height)` pages.  When the per-page pixel
height is a positive *integer* `ph`: a bitmap of height exactly `3 × ph`
produces exactly 3 pages whose slices are the distinct, non-overlapping bands
`[p·ph, (p+1)·ph)`; and whenever `ph` does not divide the bitmap height, the
last page's slice height equals the remainder `h % ph`.  (For fractional
per-page heights the floored slice starts make consecutive bands overlap by
the fractional part, as the counterexample shows.) -/
theorem paginator_amended :
    (∀ w h : ℚ, (pages w h).length = (totalPages w h).toNat) ∧
    (∀ (w : ℚ) (ph : ℕ), 0 < ph → pageHeightPx w = (ph : ℚ) →
      (pages w (3 * ph)).length = 3 ∧
      (∀ p : ℕ, p < 3 →
        sliceAt w (3 * ph) p = { sy := ((p * ph : ℕ) : ℚ), sHeight := (ph : ℚ) }) ∧
      (∀ p q : ℕ, p < q → q < 3 →
        (sliceAt w (3 * ph) p).sy + (sliceAt w (3 * ph) p).sHeight ≤
          (sliceAt w (3 * ph) q).sy)) ∧
    (∀ (w : ℚ) (ph h : ℕ), 0 < ph → pageHeightPx w = (ph : ℚ) → ¬ ph ∣ h →
      (sliceAt w h ((totalPages w h).toNat - 1)).sHeight = ((h % ph : ℕ) : ℚ)) := by
  refine ⟨?_, ?_, ?_⟩
  · intro w h
    simp [pages]
  · intro w ph hph hw
    refine ⟨?_, fun p hp => sliceAt_intHeight w ph hph hw p hp,
      fun p q hpq hq => sliceAt_nonoverlap_intHeight w ph hph hw p q hpq hq⟩
    simp [pages, totalPages_three_mul w ph hph hw]
  · intro w ph h hph hw hnd
    exact lastSlice_intHeight w ph h hph hw hnd

/-- Witness for the amended C2 at width 180 (per-page height exactly 267):
three pages for a `3 × 267` bitmap, and last slice `500 % 267 = 233` for a
500-pixel bitmap. -/
theorem paginator_amended_witness :
    (pages 180 (3 * ((267:ℕ) : ℚ))).length = 3 ∧
      (sliceAt 180 ((500:ℕ) : ℚ) ((totalPages 180 ((500:ℕ) : ℚ)).toNat - 1)).sHeight =
        ((500 % 267 : ℕ) : ℚ) :=
  ⟨(paginator_amended.2.1 180 267 (by norm_num)
      (by norm_num [pageHeightPx, pxPerMm, printableHeightMm, PAGE_HEIGHT_MM,
        PAGE_MARGIN_MM, PRINTABLE_WIDTH_MM])).1,
    paginator_amended.2.2 180 267 500 (by norm_num)
      (by norm_num [pageHeightPx, pxPerMm, printableHeightMm, PAGE_HEIGHT_MM,
        PAGE_MARGIN_MM, PRINTABLE_WIDTH_MM]) (by decide)⟩

end CVApp
